import Mathlib

/-!
Shallow embedding of the expression evaluator in `src/calculator.rs` of the
calc-mcp repository, together with proofs settling the frozen claims about
its specification.

Modelling conventions:
* Rust `f64` values are modelled by `F64`: an exact rational for a tracked
  finite value, `irr` for a finite value whose exact magnitude the model does
  not track (irrational results of the math functions), and the IEEE special
  values `inf`, `negInf`, `nan`.  Arithmetic on tracked finite values is
  exact rational arithmetic, with overflow to the signed infinities beyond
  the IEEE double overflow threshold; rounding of in-range results is
  abstracted (results keep their exact rational value).
* The distinct error message strings of the Rust code are modelled by the
  constructors of `EvalError`; the concrete message is noted at each
  constructor.
* Rust `Result` is modelled by `Except`; the character stream consumed by the
  tokenizer by `List Char`.
-/

/-- Model of a Rust `f64` value.  `finite q` is a finite value tracked
exactly as a rational; `irr` is a finite value the model does not track
exactly (e.g. `sin` of a nonzero rational, which is finite but irrational);
`inf`, `negInf` and `nan` are the IEEE special values. -/
inductive F64 where
  | finite (q : ℚ)
  | irr
  | inf
  | negInf
  | nan
deriving DecidableEq, Repr

/-- The IEEE double overflow threshold: an exact result of magnitude at least
`2^1024 - 2^970` rounds to an infinity; anything smaller stays finite. -/
def overflowBound : ℚ := 2 ^ 1024 - 2 ^ 970

/-- Round an exact rational result into `F64`: overflow to the signed
infinities at the IEEE threshold, otherwise keep the exact value
(rounding of in-range results is abstracted). -/
def F64.ovf (q : ℚ) : F64 :=
  if overflowBound ≤ q then .inf
  else if q ≤ -overflowBound then .negInf
  else .finite q

/-- Model of f64 `is_finite`: true for every finite value (tracked or not),
false for the infinities and NaN. -/
def F64.isFinite : F64 → Bool
  | .finite _ => true
  | .irr => true
  | _ => false

/-- Model of the f64 comparison `x == 0.0` (used by the division guard).
NaN and the infinities compare unequal to zero; an untracked finite value
(`irr`) is never zero, since every function producing one has a nonzero
result. -/
def F64.eqZero : F64 → Bool
  | .finite q => q == 0
  | _ => false

/-- Model of f64 addition (`left += right`). -/
def F64.add : F64 → F64 → F64
  | .nan, _ => .nan
  | _, .nan => .nan
  | .inf, .negInf => .nan
  | .negInf, .inf => .nan
  | .inf, _ => .inf
  | _, .inf => .inf
  | .negInf, _ => .negInf
  | _, .negInf => .negInf
  | .irr, _ => .irr
  | _, .irr => .irr
  | .finite a, .finite b => .ovf (a + b)

/-- Model of f64 subtraction (`left -= right`). -/
def F64.sub : F64 → F64 → F64
  | .nan, _ => .nan
  | _, .nan => .nan
  | .inf, .inf => .nan
  | .negInf, .negInf => .nan
  | .inf, _ => .inf
  | .negInf, _ => .negInf
  | _, .inf => .negInf
  | _, .negInf => .inf
  | .irr, _ => .irr
  | _, .irr => .irr
  | .finite a, .finite b => .ovf (a - b)

/-- Model of f64 multiplication (`left *= right`).  The sign of an untracked
finite operand is abstracted as positive in the cases against an infinity. -/
def F64.mul : F64 → F64 → F64
  | .nan, _ => .nan
  | _, .nan => .nan
  | .finite a, .finite b => .ovf (a * b)
  | .irr, .irr => .irr
  | .irr, .finite b => if b = 0 then .finite 0 else .irr
  | .finite a, .irr => if a = 0 then .finite 0 else .irr
  | .inf, .inf => .inf
  | .inf, .negInf => .negInf
  | .negInf, .inf => .negInf
  | .negInf, .negInf => .inf
  | .inf, .finite b => if b = 0 then .nan else if 0 < b then .inf else .negInf
  | .finite a, .inf => if a = 0 then .nan else if 0 < a then .inf else .negInf
  | .negInf, .finite b => if b = 0 then .nan else if 0 < b then .negInf else .inf
  | .finite a, .negInf => if a = 0 then .nan else if 0 < a then .negInf else .inf
  | .inf, .irr => .inf
  | .irr, .inf => .inf
  | .negInf, .irr => .negInf
  | .irr, .negInf => .negInf

/-- Model of f64 division (`left /= right`).  In the program the divisor is
guarded to be nonzero before this runs; the division-by-zero cases follow
IEEE anyway.  The sign of an untracked finite operand is abstracted as
positive in the cases against an infinity. -/
def F64.div : F64 → F64 → F64
  | .nan, _ => .nan
  | _, .nan => .nan
  | .finite a, .finite b =>
      if b = 0 then (if a = 0 then .nan else if 0 < a then .inf else .negInf)
      else .ovf (a / b)
  | .irr, .finite b => if b = 0 then .inf else .irr
  | .finite _, .irr => .irr
  | .irr, .irr => .irr
  | .inf, .finite b => if b < 0 then .negInf else .inf
  | .negInf, .finite b => if b < 0 then .inf else .negInf
  | .inf, .irr => .inf
  | .negInf, .irr => .negInf
  | .finite _, .inf => .finite 0
  | .finite _, .negInf => .finite 0
  | .irr, .inf => .finite 0
  | .irr, .negInf => .finite 0
  | .inf, .inf => .nan
  | .inf, .negInf => .nan
  | .negInf, .inf => .nan
  | .negInf, .negInf => .nan

/-- Model of f64 negation (the unary minus `-value`). -/
def F64.neg : F64 → F64
  | .finite a => .finite (-a)
  | .irr => .irr
  | .inf => .negInf
  | .negInf => .inf
  | .nan => .nan

/-- Model of Rust `f64::powf`.  Exact for a finite base and a finite integer
exponent (with IEEE overflow); a negative finite base with a non-integer
exponent gives NaN as in IEEE; a positive finite base with a non-integer
exponent gives a positive finite value the model does not track (`irr`).
Cases with an untracked operand are abstracted to `irr` resp. NaN. -/
def F64.powf (x y : F64) : F64 :=
  match y with
  | .finite e =>
    if e = 0 then .finite 1
    else
      match x with
      | .finite a =>
        if e.den = 1 then
          if a = 0 then (if 0 < e then .finite 0 else .inf)
          else .ovf (a ^ e.num)
        else
          if a < 0 then .nan
          else if a = 0 then (if 0 < e then .finite 0 else .inf)
          else if a = 1 then .finite 1
          else .irr
      | .irr => .irr
      | .inf => if 0 < e then .inf else .finite 0
      | .negInf =>
          if 0 < e then (if e.den = 1 ∧ e.num % 2 = 1 then .negInf else .inf)
          else .finite 0
      | .nan => .nan
  | .irr =>
      match x with
      | .nan => .nan
      | _ => .irr
  | .inf =>
      match x with
      | .finite a =>
          if a = 1 ∨ a = -1 then .finite 1
          else if -1 < a ∧ a < 1 then .finite 0 else .inf
      | .irr => .irr
      | .nan => .nan
      | _ => .inf
  | .negInf =>
      match x with
      | .finite a =>
          if a = 1 ∨ a = -1 then .finite 1
          else if -1 < a ∧ a < 1 then .inf else .finite 0
      | .irr => .irr
      | .nan => .nan
      | _ => .finite 0
  | .nan =>
      match x with
      | .finite a => if a = 1 then .finite 1 else .nan
      | _ => .nan

/-- Model of `f64::sqrt`: NaN on a negative argument; exact on a perfect
square of a natural number; otherwise an untracked positive finite value. -/
def fsqrt : F64 → F64
  | .finite q =>
      if q < 0 then .nan
      else if q.den = 1 ∧ (Nat.sqrt q.num.toNat : ℤ) ^ 2 = q.num then
        .finite (Nat.sqrt q.num.toNat)
      else .irr
  | .irr => .irr
  | .inf => .inf
  | .negInf => .nan
  | .nan => .nan

/-- Model of `f64::abs`. -/
def fabs : F64 → F64
  | .finite q => .finite |q|
  | .irr => .irr
  | .nan => .nan
  | _ => .inf

/-- Model of `f64::sin`: exact at 0, untracked finite elsewhere (the sine of
a nonzero rational is irrational), NaN at the infinities. -/
def fsin : F64 → F64
  | .finite q => if q = 0 then .finite 0 else .irr
  | .irr => .irr
  | .nan => .nan
  | _ => .nan

/-- Model of `f64::cos`: exact at 0, untracked finite elsewhere, NaN at the
infinities. -/
def fcos : F64 → F64
  | .finite q => if q = 0 then .finite 1 else .irr
  | .irr => .irr
  | .nan => .nan
  | _ => .nan

/-- Model of `f64::tan`: exact at 0, untracked finite elsewhere (every pole
of the tangent is irrational), NaN at the infinities. -/
def ftan : F64 → F64
  | .finite q => if q = 0 then .finite 0 else .irr
  | .irr => .irr
  | .nan => .nan
  | _ => .nan

/-- Model of `f64::ln`: NaN on a negative argument, negative infinity at 0,
exact at 1, untracked finite elsewhere. -/
def fln : F64 → F64
  | .finite q =>
      if q < 0 then .nan
      else if q = 0 then .negInf
      else if q = 1 then .finite 0
      else .irr
  | .irr => .irr
  | .inf => .inf
  | .negInf => .nan
  | .nan => .nan

/-- The function whitelist built by `Calculator::new`: the fixed map from
name to unary function. -/
def allowed_functions : List (String × (F64 → F64)) :=
  [("sqrt", fsqrt), ("abs", fabs), ("sin", fsin), ("cos", fcos),
   ("tan", ftan), ("ln", fln)]

/-- Lookup in the whitelist (`allowed_functions.get`); its `isSome` models
`allowed_functions.contains_key`. -/
def lookupFunction (name : String) : Option (F64 → F64) :=
  (allowed_functions.find? (fun p => p.1 == name)).map (fun p => p.2)

/-- The `Token` enum of the source, verbatim. -/
inductive Token where
  | number (v : F64)
  | operator (c : Char)
  | function (name : String)
  | leftParen
  | rightParen
deriving DecidableEq, Repr

/-- The closed set of failures of the evaluator, one constructor per distinct
error message of the source:
`inputTooLong` = "式が長すぎます（最大1000文字）",
`unsafeCharacter` = "不正な文字が含まれています",
`invalidCharacter c` = "不正な文字: {c}",
`unknownFunction n` = "未サポートの関数: {n}" (tokenizer),
`numberParseError s` = "数値の解析に失敗: {s}",
`emptyExpression` = "空の式です",
`unexpectedEndOfInput` = "予期しない式の終了",
`unmatchedParenthesis` = "対応する右括弧がありません",
`missingFunctionParenthesis` = "関数の後に左括弧が必要です",
`missingFunctionClosingParenthesis` = "関数の引数の後に右括弧が必要です",
`unknownFunctionEval n` = "未知の関数: {n}" (evaluator lookup),
`unexpectedToken t` = "予期しないトークン: {t}",
`divisionByZero` = "ゼロ除算エラー",
`invalidPowerResult` = "べき乗の計算結果が無効です",
`invalidFunctionResult` = "計算結果が無効です（NaN または 無限大）". -/
inductive EvalError where
  | inputTooLong
  | unsafeCharacter
  | invalidCharacter (c : Char)
  | unknownFunction (name : String)
  | numberParseError (s : String)
  | emptyExpression
  | unexpectedEndOfInput
  | unmatchedParenthesis
  | missingFunctionParenthesis
  | missingFunctionClosingParenthesis
  | unknownFunctionEval (name : String)
  | unexpectedToken (t : Token)
  | divisionByZero
  | invalidPowerResult
  | invalidFunctionResult
deriving DecidableEq, Repr

/-- The scanning loop of `parse_number`: consumes a maximal run of digits
with at most one decimal point (`has_dot`), returning the consumed
characters (`number_str`) and the remaining stream. -/
def parse_number_go : List Char → Bool → List Char × List Char
  | [], _ => ([], [])
  | c :: rest, hasDot =>
    if c.isDigit then
      let (s, r) := parse_number_go rest hasDot
      (c :: s, r)
    else if c = '.' && !hasDot then
      let (s, r) := parse_number_go rest true
      (c :: s, r)
    else ([], c :: rest)

/-- Exact value of one decimal digit. -/
def decDigit (c : Char) : ℕ := c.toNat - '0'.toNat

/-- Exact rational value of a decimal string split into its integral and
fractional digit runs. -/
def decValue (intPart fracPart : List Char) : ℚ :=
  intPart.foldl (fun acc c => 10 * acc + (decDigit c : ℚ)) 0 +
    fracPart.foldr (fun c acc => ((decDigit c : ℚ) + acc) / 10) 0

/-- Model of Rust `str::parse::<f64>()` restricted to the strings
`parse_number` builds (digits with at most one `'.'`): parsing succeeds
exactly when the string contains at least one digit (so `"."` fails, as for
Rust's `f64` parser); the value is the exact decimal value, overflowing to
an infinity past the IEEE double range (rounding of in-range values is
abstracted). -/
def rustParseF64 (s : List Char) : Option F64 :=
  if s.any Char.isDigit then
    some (F64.ovf (decValue (s.takeWhile (fun c => c != '.'))
      ((s.dropWhile (fun c => c != '.')).drop 1)))
  else none

/-- The `parse_number` method: consume the digit run, then parse it as an
f64; a run that fails to parse yields `numberParseError`.  Returns the value
and the remaining character stream. -/
def parse_number (cs : List Char) : Except EvalError (F64 × List Char) :=
  match rustParseF64 (parse_number_go cs false).1 with
  | some v => .ok (v, (parse_number_go cs false).2)
  | none => .error (.numberParseError (String.mk (parse_number_go cs false).1))

/-- The `parse_identifier` method: consumes a maximal run of alphabetic
characters.  (Rust consumes Unicode-alphabetic characters; the model narrows
this to ASCII letters, which covers every whitelisted name.) -/
def parse_identifier : List Char → List Char × List Char
  | [] => ([], [])
  | c :: rest =>
    if c.isAlpha then
      let (s, r) := parse_identifier rest
      (c :: s, r)
    else ([], c :: rest)

theorem parse_number_go_append (cs : List Char) (b : Bool) :
    (parse_number_go cs b).1 ++ (parse_number_go cs b).2 = cs := by
  induction cs generalizing b with
  | nil => rfl
  | cons c rest ih =>
    simp only [parse_number_go]
    split
    · simpa using ih b
    · split
      · simpa using ih true
      · simp

theorem parse_number_go_consumed (c : Char) (rest : List Char)
    (h : c.isDigit = true ∨ (c = '.' ∧ b = false)) :
    ∃ s, (parse_number_go (c :: rest) b).1 = c :: s := by
  rcases h with h | ⟨h1, h2⟩
  · simp [parse_number_go, h]
  · subst h1 h2
    by_cases hd : Char.isDigit '.' = true
    · simp [parse_number_go, hd]
    · simp [parse_number_go, hd]

theorem parse_number_rest_lt (c : Char) (rest : List Char)
    (h : c.isDigit = true ∨ (c = '.' ∧ b = false)) :
    (parse_number_go (c :: rest) b).2.length < (c :: rest).length := by
  obtain ⟨s, hs⟩ := parse_number_go_consumed c rest h
  have happ := parse_number_go_append (c :: rest) b
  have : (c :: s).length + (parse_number_go (c :: rest) b).2.length
      = (c :: rest).length := by
    rw [← hs, ← List.length_append, happ]
  simp only [List.length_cons] at this ⊢
  omega

theorem parse_identifier_append (cs : List Char) :
    (parse_identifier cs).1 ++ (parse_identifier cs).2 = cs := by
  induction cs with
  | nil => rfl
  | cons c rest ih =>
    simp only [parse_identifier]
    split
    · simpa using ih
    · simp

theorem parse_identifier_rest_lt (c : Char) (rest : List Char)
    (h : c.isAlpha = true) :
    (parse_identifier (c :: rest)).2.length < (c :: rest).length := by
  have happ := parse_identifier_append (c :: rest)
  have hlen : (parse_identifier (c :: rest)).1.length
      + (parse_identifier (c :: rest)).2.length = (c :: rest).length := by
    rw [← List.length_append, happ]
  have hcons : ∃ s, (parse_identifier (c :: rest)).1 = c :: s := by
    simp [parse_identifier, h]
  obtain ⟨s, hs⟩ := hcons
  rw [hs] at hlen
  simp only [List.length_cons] at hlen ⊢
  omega

theorem parse_number_ok_rest (cs : List Char) (v : F64) (r : List Char)
    (h : parse_number cs = .ok (v, r)) : r = (parse_number_go cs false).2 := by
  unfold parse_number at h
  split at h
  · cases h; rfl
  · cases h

/-- The scanning loop of `tokenize`: one left-to-right pass over the
character stream, matching the source's branches in order (space skip,
number, the five operators, parentheses, letters, anything else). -/
def tokenize_go (cs : List Char) : Except EvalError (List Token) :=
  match cs with
  | [] => .ok []
  | c :: rest =>
    if c = ' ' then tokenize_go rest
    else if hn : c.isDigit = true ∨ c = '.' then
      match hp : parse_number (c :: rest) with
      | .error e => .error e
      | .ok (v, rest') =>
        match tokenize_go rest' with
        | .error e => .error e
        | .ok ts => .ok (.number v :: ts)
    else if c = '+' ∨ c = '-' ∨ c = '*' ∨ c = '/' ∨ c = '^' then
      (tokenize_go rest).map (fun ts => .operator c :: ts)
    else if c = '(' then (tokenize_go rest).map (fun ts => .leftParen :: ts)
    else if c = ')' then (tokenize_go rest).map (fun ts => .rightParen :: ts)
    else if c.isAlpha = true then
      let name := String.mk (parse_identifier (c :: rest)).1
      if (lookupFunction name).isSome then
        (tokenize_go (parse_identifier (c :: rest)).2).map
          (fun ts => .function name :: ts)
      else .error (.unknownFunction name)
    else .error (.invalidCharacter c)
termination_by cs.length
decreasing_by
  · simp only [List.length_cons]; omega
  · rw [parse_number_ok_rest _ _ _ hp]
    exact parse_number_rest_lt c rest (by tauto)
  · simp only [List.length_cons]; omega
  · simp only [List.length_cons]; omega
  · simp only [List.length_cons]; omega
  · exact parse_identifier_rest_lt c rest (by assumption)

/-- The `tokenize` method on a Rust string (its character stream). -/
def tokenize (expression : String) : Except EvalError (List Token) :=
  tokenize_go expression.data

mutual

/-- The `evaluate_expression` method: a term, then the loop folding
`+` and `-` left-associatively.  The returned position is the exact cursor
just after the consumed construct; it is strictly past `pos` and at most the
token count (carried in the subtype so the recursion is visibly
terminating). -/
def evaluate_expression (tokens : List Token) (pos : Nat) :
    Except EvalError (F64 × {p : Nat // pos < p ∧ p ≤ tokens.length}) :=
  match evaluate_term tokens pos with
  | .error e => .error e
  | .ok (left, ⟨p1, hp1⟩) =>
    match expression_loop tokens left p1 with
    | .error e => .error e
    | .ok (v, ⟨p2, hp2⟩) => .ok (v, ⟨p2, by omega⟩)

termination_by (tokens.length - pos, 3)
decreasing_by
  all_goals simp_wf
  all_goals first
    | exact Prod.Lex.right _ (by omega)
    | exact Prod.Lex.left _ _ (by omega)

/-- The `while` loop of `evaluate_expression`: as long as the cursor sits on
a `+` or `-` operator token, consume it, evaluate the next term and fold it
into the accumulator; any other token (or the end) stops the loop. -/
def expression_loop (tokens : List Token) (left : F64) (pos : Nat) :
    Except EvalError (F64 × {p : Nat // pos ≤ p ∧ p ≤ max tokens.length pos}) :=
  if h : pos < tokens.length then
    match tokens[pos] with
    | .operator '+' =>
      match evaluate_term tokens (pos + 1) with
      | .error e => .error e
      | .ok (right, ⟨p1, hp1⟩) =>
        match expression_loop tokens (left.add right) p1 with
        | .error e => .error e
        | .ok (v, ⟨p2, hp2⟩) => .ok (v, ⟨p2, by omega⟩)
    | .operator '-' =>
      match evaluate_term tokens (pos + 1) with
      | .error e => .error e
      | .ok (right, ⟨p1, hp1⟩) =>
        match expression_loop tokens (left.sub right) p1 with
        | .error e => .error e
        | .ok (v, ⟨p2, hp2⟩) => .ok (v, ⟨p2, by omega⟩)
    | _ => .ok (left, ⟨pos, by omega⟩)
  else .ok (left, ⟨pos, by omega⟩)

termination_by (tokens.length - pos, 0)
decreasing_by
  all_goals simp_wf
  all_goals first
    | exact Prod.Lex.right _ (by omega)
    | exact Prod.Lex.left _ _ (by omega)

/-- The `evaluate_term` method: a power, then the loop folding `*` and `/`
left-associatively. -/
def evaluate_term (tokens : List Token) (pos : Nat) :
    Except EvalError (F64 × {p : Nat // pos < p ∧ p ≤ tokens.length}) :=
  match evaluate_power tokens pos with
  | .error e => .error e
  | .ok (left, ⟨p1, hp1⟩) =>
    match term_loop tokens left p1 with
    | .error e => .error e
    | .ok (v, ⟨p2, hp2⟩) => .ok (v, ⟨p2, by omega⟩)

termination_by (tokens.length - pos, 2)
decreasing_by
  all_goals simp_wf
  all_goals first
    | exact Prod.Lex.right _ (by omega)
    | exact Prod.Lex.left _ _ (by omega)

/-- The `while` loop of `evaluate_term`: folds `*` and `/`; before a
division is executed the right operand is compared against `0.0` and a zero
divisor fails with `divisionByZero`. -/
def term_loop (tokens : List Token) (left : F64) (pos : Nat) :
    Except EvalError (F64 × {p : Nat // pos ≤ p ∧ p ≤ max tokens.length pos}) :=
  if h : pos < tokens.length then
    match tokens[pos] with
    | .operator '*' =>
      match evaluate_power tokens (pos + 1) with
      | .error e => .error e
      | .ok (right, ⟨p1, hp1⟩) =>
        match term_loop tokens (left.mul right) p1 with
        | .error e => .error e
        | .ok (v, ⟨p2, hp2⟩) => .ok (v, ⟨p2, by omega⟩)
    | .operator '/' =>
      match evaluate_power tokens (pos + 1) with
      | .error e => .error e
      | .ok (right, ⟨p1, hp1⟩) =>
        if right.eqZero then .error .divisionByZero
        else
          match term_loop tokens (left.div right) p1 with
          | .error e => .error e
          | .ok (v, ⟨p2, hp2⟩) => .ok (v, ⟨p2, by omega⟩)
    | _ => .ok (left, ⟨pos, by omega⟩)
  else .ok (left, ⟨pos, by omega⟩)

termination_by (tokens.length - pos, 0)
decreasing_by
  all_goals simp_wf
  all_goals first
    | exact Prod.Lex.right _ (by omega)
    | exact Prod.Lex.left _ _ (by omega)

/-- The `evaluate_power` method: a factor, then the loop folding `^`
left-associatively (a chain of `powf`). -/
def evaluate_power (tokens : List Token) (pos : Nat) :
    Except EvalError (F64 × {p : Nat // pos < p ∧ p ≤ tokens.length}) :=
  match evaluate_factor tokens pos with
  | .error e => .error e
  | .ok (left, ⟨p1, hp1⟩) =>
    match power_loop tokens left p1 with
    | .error e => .error e
    | .ok (v, ⟨p2, hp2⟩) => .ok (v, ⟨p2, by omega⟩)

termination_by (tokens.length - pos, 1)
decreasing_by
  all_goals simp_wf
  all_goals first
    | exact Prod.Lex.right _ (by omega)
    | exact Prod.Lex.left _ _ (by omega)

/-- The `while` loop of `evaluate_power`: on each `^` the accumulator is
replaced by `left.powf right` and the result is checked for finiteness; a
non-finite power fails with `invalidPowerResult` before anything
propagates. -/
def power_loop (tokens : List Token) (left : F64) (pos : Nat) :
    Except EvalError (F64 × {p : Nat // pos ≤ p ∧ p ≤ max tokens.length pos}) :=
  if h : pos < tokens.length then
    match tokens[pos] with
    | .operator '^' =>
      match evaluate_factor tokens (pos + 1) with
      | .error e => .error e
      | .ok (right, ⟨p1, hp1⟩) =>
        if (left.powf right).isFinite then
          match power_loop tokens (left.powf right) p1 with
          | .error e => .error e
          | .ok (v, ⟨p2, hp2⟩) => .ok (v, ⟨p2, by omega⟩)
        else .error .invalidPowerResult
    | _ => .ok (left, ⟨pos, by omega⟩)
  else .ok (left, ⟨pos, by omega⟩)

termination_by (tokens.length - pos, 0)
decreasing_by
  all_goals simp_wf
  all_goals first
    | exact Prod.Lex.right _ (by omega)
    | exact Prod.Lex.left _ _ (by omega)

/-- The `evaluate_factor` method: number literal, unary minus and plus
(recursing into factor), parenthesized expression, or function application
(whose result is checked for finiteness); an exhausted cursor fails with
`unexpectedEndOfInput` and any other token with `unexpectedToken`. -/
def evaluate_factor (tokens : List Token) (pos : Nat) :
    Except EvalError (F64 × {p : Nat // pos < p ∧ p ≤ tokens.length}) :=
  if h : pos < tokens.length then
    match tokens[pos] with
    | .number n => .ok (n, ⟨pos + 1, by omega⟩)
    | .operator '-' =>
      match evaluate_factor tokens (pos + 1) with
      | .error e => .error e
      | .ok (v, ⟨q, hq⟩) => .ok (v.neg, ⟨q, by omega⟩)
    | .operator '+' =>
      match evaluate_factor tokens (pos + 1) with
      | .error e => .error e
      | .ok (v, ⟨q, hq⟩) => .ok (v, ⟨q, by omega⟩)
    | .leftParen =>
      match evaluate_expression tokens (pos + 1) with
      | .error e => .error e
      | .ok (result, ⟨q, hq⟩) =>
        if h2 : q < tokens.length then
          match tokens[q] with
          | .rightParen => .ok (result, ⟨q + 1, by omega⟩)
          | _ => .error .unmatchedParenthesis
        else .error .unmatchedParenthesis
    | .function name =>
      if h2 : pos + 1 < tokens.length then
        match tokens[pos + 1] with
        | .leftParen =>
          match evaluate_expression tokens (pos + 2) with
          | .error e => .error e
          | .ok (arg, ⟨q, hq⟩) =>
            if h3 : q < tokens.length then
              match tokens[q] with
              | .rightParen =>
                match lookupFunction name with
                | none => .error (.unknownFunctionEval name)
                | some f =>
                  if (f arg).isFinite then .ok (f arg, ⟨q + 1, by omega⟩)
                  else .error .invalidFunctionResult
              | _ => .error .missingFunctionClosingParenthesis
            else .error .missingFunctionClosingParenthesis
        | _ => .error .missingFunctionParenthesis
      else .error .missingFunctionParenthesis
    | t => .error (.unexpectedToken t)
  else .error .unexpectedEndOfInput
termination_by (tokens.length - pos, 0)
decreasing_by
  all_goals simp_wf
  all_goals first
    | exact Prod.Lex.right _ (by omega)
    | exact Prod.Lex.left _ _ (by omega)

end

/-- The `evaluate_tokens` method: reject an empty token sequence with
`emptyExpression`, otherwise evaluate the top-level expression from cursor 0
and discard the final cursor position (`.map(|(result, _)| result)`). -/
def evaluate_tokens (tokens : List Token) : Except EvalError F64 :=
  if tokens.isEmpty then .error .emptyExpression
  else
    match evaluate_expression tokens 0 with
    | .error e => .error e
    | .ok (result, _) => .ok result

/-- The `evaluate` method: the byte-length cap (Rust `len()` counts UTF-8
bytes), then the unsafe-character scan for `;`, `|`, `&`, then tokenization
and evaluation. -/
def evaluate (expression : String) : Except EvalError F64 :=
  if 1000 < expression.utf8ByteSize then .error .inputTooLong
  else if expression.data.contains ';' || expression.data.contains '|'
      || expression.data.contains '&' then .error .unsafeCharacter
  else
    match tokenize expression with
    | .error e => .error e
    | .ok tokens => evaluate_tokens tokens

/-- Value-level view of `evaluate_expression`: the same computation with the
termination bookkeeping of the returned cursor stripped to a plain `Nat`. -/
def evaluate_expressionV (tokens : List Token) (pos : Nat) :
    Except EvalError (F64 × Nat) :=
  (evaluate_expression tokens pos).map (fun r => (r.1, r.2.val))

/-- Value-level view of `evaluate_term`. -/
def evaluate_termV (tokens : List Token) (pos : Nat) :
    Except EvalError (F64 × Nat) :=
  (evaluate_term tokens pos).map (fun r => (r.1, r.2.val))

/-- Value-level view of `evaluate_power`. -/
def evaluate_powerV (tokens : List Token) (pos : Nat) :
    Except EvalError (F64 × Nat) :=
  (evaluate_power tokens pos).map (fun r => (r.1, r.2.val))

/-- Value-level view of `evaluate_factor`. -/
def evaluate_factorV (tokens : List Token) (pos : Nat) :
    Except EvalError (F64 × Nat) :=
  (evaluate_factor tokens pos).map (fun r => (r.1, r.2.val))

/-- Value-level view of `expression_loop`. -/
def expression_loopV (tokens : List Token) (left : F64) (pos : Nat) :
    Except EvalError (F64 × Nat) :=
  (expression_loop tokens left pos).map (fun r => (r.1, r.2.val))

/-- Value-level view of `term_loop`. -/
def term_loopV (tokens : List Token) (left : F64) (pos : Nat) :
    Except EvalError (F64 × Nat) :=
  (term_loop tokens left pos).map (fun r => (r.1, r.2.val))

/-- Value-level view of `power_loop`. -/
def power_loopV (tokens : List Token) (left : F64) (pos : Nat) :
    Except EvalError (F64 × Nat) :=
  (power_loop tokens left pos).map (fun r => (r.1, r.2.val))

theorem evaluate_expressionV_eq (tokens : List Token) (pos : Nat) :
    evaluate_expressionV tokens pos =
      match evaluate_termV tokens pos with
      | .error e => .error e
      | .ok (l, p) => expression_loopV tokens l p := by
  unfold evaluate_expressionV evaluate_termV expression_loopV
  rw [evaluate_expression]
  cases evaluate_term tokens pos with
  | error e => rfl
  | ok r =>
    obtain ⟨l, p1, hp1⟩ := r
    simp only [Except.map]
    cases expression_loop tokens l p1 with
    | error e => rfl
    | ok r2 => rfl

theorem evaluate_termV_eq (tokens : List Token) (pos : Nat) :
    evaluate_termV tokens pos =
      match evaluate_powerV tokens pos with
      | .error e => .error e
      | .ok (l, p) => term_loopV tokens l p := by
  unfold evaluate_termV evaluate_powerV term_loopV
  rw [evaluate_term]
  cases evaluate_power tokens pos with
  | error e => rfl
  | ok r =>
    obtain ⟨l, p1, hp1⟩ := r
    simp only [Except.map]
    cases term_loop tokens l p1 with
    | error e => rfl
    | ok r2 => rfl

theorem evaluate_powerV_eq (tokens : List Token) (pos : Nat) :
    evaluate_powerV tokens pos =
      match evaluate_factorV tokens pos with
      | .error e => .error e
      | .ok (l, p) => power_loopV tokens l p := by
  unfold evaluate_powerV evaluate_factorV power_loopV
  rw [evaluate_power]
  cases evaluate_factor tokens pos with
  | error e => rfl
  | ok r =>
    obtain ⟨l, p1, hp1⟩ := r
    simp only [Except.map]
    cases power_loop tokens l p1 with
    | error e => rfl
    | ok r2 => rfl

theorem evaluate_tokens_eq (tokens : List Token) :
    evaluate_tokens tokens =
      if tokens.isEmpty then .error .emptyExpression
      else (evaluate_expressionV tokens 0).map Prod.fst := by
  unfold evaluate_tokens evaluate_expressionV
  split
  · rfl
  · cases evaluate_expression tokens 0 with
    | error e => rfl
    | ok r => obtain ⟨v, p, hp⟩ := r; rfl

theorem expression_loopV_stop (tokens : List Token) (left : F64) (pos : Nat)
    (h : (tokens[pos]?).all
      (fun t => !(t == Token.operator '+') && !(t == Token.operator '-')) = true) :
    expression_loopV tokens left pos = .ok (left, pos) := by
  unfold expression_loopV
  rw [expression_loop]
  split
  · rename_i hlt
    rw [List.getElem?_eq_getElem hlt] at h
    simp only [Option.all_some, Bool.and_eq_true, bne_iff_ne, ne_eq] at h
    split
    · rename_i heq
      rw [heq] at h
      simp at h
    · rename_i heq
      rw [heq] at h
      simp at h
    · rfl
  · rfl

theorem expression_loopV_add (tokens : List Token) (left : F64) (pos : Nat)
    (h : tokens[pos]? = some (.operator '+')) :
    expression_loopV tokens left pos =
      match evaluate_termV tokens (pos + 1) with
      | .error e => .error e
      | .ok (r, p1) => expression_loopV tokens (left.add r) p1 := by
  obtain ⟨hlt, heq⟩ := List.getElem?_eq_some.mp h
  unfold expression_loopV evaluate_termV
  rw [expression_loop, dif_pos hlt, heq]
  cases evaluate_term tokens (pos + 1) with
  | error e => rfl
  | ok r =>
    obtain ⟨rv, p1, hp1⟩ := r
    simp only [Except.map]
    cases expression_loop tokens (left.add rv) p1 with
    | error e => rfl
    | ok r2 => rfl

theorem expression_loopV_sub (tokens : List Token) (left : F64) (pos : Nat)
    (h : tokens[pos]? = some (.operator '-')) :
    expression_loopV tokens left pos =
      match evaluate_termV tokens (pos + 1) with
      | .error e => .error e
      | .ok (r, p1) => expression_loopV tokens (left.sub r) p1 := by
  obtain ⟨hlt, heq⟩ := List.getElem?_eq_some.mp h
  unfold expression_loopV evaluate_termV
  rw [expression_loop, dif_pos hlt, heq]
  cases evaluate_term tokens (pos + 1) with
  | error e => rfl
  | ok r =>
    obtain ⟨rv, p1, hp1⟩ := r
    simp only [Except.map]
    cases expression_loop tokens (left.sub rv) p1 with
    | error e => rfl
    | ok r2 => rfl

theorem term_loopV_stop (tokens : List Token) (left : F64) (pos : Nat)
    (h : (tokens[pos]?).all
      (fun t => !(t == Token.operator '*') && !(t == Token.operator '/')) = true) :
    term_loopV tokens left pos = .ok (left, pos) := by
  unfold term_loopV
  rw [term_loop]
  split
  · rename_i hlt
    rw [List.getElem?_eq_getElem hlt] at h
    simp only [Option.all_some, Bool.and_eq_true, bne_iff_ne, ne_eq] at h
    split
    · rename_i heq
      rw [heq] at h
      simp at h
    · rename_i heq
      rw [heq] at h
      simp at h
    · rfl
  · rfl

theorem term_loopV_mul (tokens : List Token) (left : F64) (pos : Nat)
    (h : tokens[pos]? = some (.operator '*')) :
    term_loopV tokens left pos =
      match evaluate_powerV tokens (pos + 1) with
      | .error e => .error e
      | .ok (r, p1) => term_loopV tokens (left.mul r) p1 := by
  obtain ⟨hlt, heq⟩ := List.getElem?_eq_some.mp h
  unfold term_loopV evaluate_powerV
  rw [term_loop, dif_pos hlt, heq]
  cases evaluate_power tokens (pos + 1) with
  | error e => rfl
  | ok r =>
    obtain ⟨rv, p1, hp1⟩ := r
    simp only [Except.map]
    cases term_loop tokens (left.mul rv) p1 with
    | error e => rfl
    | ok r2 => rfl

theorem term_loopV_div (tokens : List Token) (left : F64) (pos : Nat)
    (h : tokens[pos]? = some (.operator '/')) :
    term_loopV tokens left pos =
      match evaluate_powerV tokens (pos + 1) with
      | .error e => .error e
      | .ok (r, p1) =>
        if r.eqZero then .error .divisionByZero
        else term_loopV tokens (left.div r) p1 := by
  obtain ⟨hlt, heq⟩ := List.getElem?_eq_some.mp h
  unfold term_loopV evaluate_powerV
  rw [term_loop, dif_pos hlt, heq]
  cases evaluate_power tokens (pos + 1) with
  | error e => rfl
  | ok r =>
    obtain ⟨rv, p1, hp1⟩ := r
    simp only [Except.map]
    by_cases hz : rv.eqZero
    · rw [if_pos hz, if_pos hz]
    · rw [if_neg hz, if_neg hz]
      cases term_loop tokens (left.div rv) p1 with
      | error e => rfl
      | ok r2 => rfl

theorem power_loopV_stop (tokens : List Token) (left : F64) (pos : Nat)
    (h : (tokens[pos]?).all (fun t => !(t == Token.operator '^')) = true) :
    power_loopV tokens left pos = .ok (left, pos) := by
  unfold power_loopV
  rw [power_loop]
  split
  · rename_i hlt
    rw [List.getElem?_eq_getElem hlt] at h
    simp only [Option.all_some, bne_iff_ne, ne_eq] at h
    split
    · rename_i heq
      rw [heq] at h
      simp at h
    · rfl
  · rfl

theorem power_loopV_pow (tokens : List Token) (left : F64) (pos : Nat)
    (h : tokens[pos]? = some (.operator '^')) :
    power_loopV tokens left pos =
      match evaluate_factorV tokens (pos + 1) with
      | .error e => .error e
      | .ok (r, p1) =>
        if (left.powf r).isFinite then power_loopV tokens (left.powf r) p1
        else .error .invalidPowerResult := by
  obtain ⟨hlt, heq⟩ := List.getElem?_eq_some.mp h
  unfold power_loopV evaluate_factorV
  rw [power_loop, dif_pos hlt, heq]
  cases evaluate_factor tokens (pos + 1) with
  | error e => rfl
  | ok r =>
    obtain ⟨rv, p1, hp1⟩ := r
    simp only [Except.map]
    by_cases hf : (left.powf rv).isFinite
    · rw [if_pos hf, if_pos hf]
      cases power_loop tokens (left.powf rv) p1 with
      | error e => rfl
      | ok r2 => rfl
    · rw [if_neg hf, if_neg hf]

theorem evaluate_factorV_end (tokens : List Token) (pos : Nat)
    (h : tokens.length ≤ pos) :
    evaluate_factorV tokens pos = .error .unexpectedEndOfInput := by
  unfold evaluate_factorV
  rw [evaluate_factor, dif_neg (by omega)]
  rfl

theorem evaluate_factorV_number (tokens : List Token) (pos : Nat) (n : F64)
    (h : tokens[pos]? = some (.number n)) :
    evaluate_factorV tokens pos = .ok (n, pos + 1) := by
  obtain ⟨hlt, heq⟩ := List.getElem?_eq_some.mp h
  unfold evaluate_factorV
  rw [evaluate_factor, dif_pos hlt, heq]
  rfl

theorem evaluate_factorV_neg (tokens : List Token) (pos : Nat)
    (h : tokens[pos]? = some (.operator '-')) :
    evaluate_factorV tokens pos =
      (evaluate_factorV tokens (pos + 1)).map (fun r => (r.1.neg, r.2)) := by
  obtain ⟨hlt, heq⟩ := List.getElem?_eq_some.mp h
  unfold evaluate_factorV
  rw [evaluate_factor, dif_pos hlt, heq]
  cases evaluate_factor tokens (pos + 1) with
  | error e => rfl
  | ok r => obtain ⟨v, q, hq⟩ := r; rfl

theorem evaluate_factorV_plus (tokens : List Token) (pos : Nat)
    (h : tokens[pos]? = some (.operator '+')) :
    evaluate_factorV tokens pos = evaluate_factorV tokens (pos + 1) := by
  obtain ⟨hlt, heq⟩ := List.getElem?_eq_some.mp h
  unfold evaluate_factorV
  rw [evaluate_factor, dif_pos hlt, heq]
  cases evaluate_factor tokens (pos + 1) with
  | error e => rfl
  | ok r => obtain ⟨v, q, hq⟩ := r; rfl

theorem evaluate_factorV_paren (tokens : List Token) (pos : Nat)
    (h : tokens[pos]? = some .leftParen) :
    evaluate_factorV tokens pos =
      match evaluate_expressionV tokens (pos + 1) with
      | .error e => .error e
      | .ok (result, q) =>
        match tokens[q]? with
        | some .rightParen => .ok (result, q + 1)
        | _ => .error .unmatchedParenthesis := by
  obtain ⟨hlt, heq⟩ := List.getElem?_eq_some.mp h
  unfold evaluate_factorV evaluate_expressionV
  rw [evaluate_factor, dif_pos hlt, heq]
  cases evaluate_expression tokens (pos + 1) with
  | error e => rfl
  | ok r =>
    obtain ⟨v, q, hq⟩ := r
    simp only [Except.map]
    by_cases h2 : q < tokens.length
    · rw [dif_pos h2, List.getElem?_eq_getElem h2]
      cases hq2 : tokens[q] with
      | rightParen => rfl
      | number n => rfl
      | operator c => rfl
      | function nm => rfl
      | leftParen => rfl
    · rw [dif_neg h2, List.getElem?_eq_none (by omega)]

theorem evaluate_factorV_fn (tokens : List Token) (pos : Nat) (name : String)
    (h : tokens[pos]? = some (.function name)) :
    evaluate_factorV tokens pos =
      match tokens[pos + 1]? with
      | some .leftParen =>
        (match evaluate_expressionV tokens (pos + 2) with
         | .error e => .error e
         | .ok (arg, q) =>
           match tokens[q]? with
           | some .rightParen =>
             (match lookupFunction name with
              | none => .error (.unknownFunctionEval name)
              | some f =>
                if (f arg).isFinite then .ok (f arg, q + 1)
                else .error .invalidFunctionResult)
           | _ => .error .missingFunctionClosingParenthesis)
      | _ => .error .missingFunctionParenthesis := by
  obtain ⟨hlt, heq⟩ := List.getElem?_eq_some.mp h
  unfold evaluate_factorV evaluate_expressionV
  rw [evaluate_factor, dif_pos hlt, heq]
  simp only [Except.map]
  by_cases h2 : pos + 1 < tokens.length
  · rw [List.getElem?_eq_getElem h2, dif_pos h2]
    cases hq2 : tokens[pos + 1] with
    | leftParen =>
      cases evaluate_expression tokens (pos + 2) with
      | error e => rfl
      | ok r =>
        obtain ⟨arg, q, hq⟩ := r
        simp only [Except.map]
        by_cases h3 : q < tokens.length
        · rw [List.getElem?_eq_getElem h3, dif_pos h3]
          cases hq3 : tokens[q] with
          | rightParen =>
            cases hlk : lookupFunction name with
            | none => simp [hlk]
            | some f =>
              by_cases h4 : (f arg).isFinite
              · simp [h4, hlk]
              · simp [h4, hlk]
          | number n => rfl
          | operator c => rfl
          | function nm => rfl
          | leftParen => rfl
        · rw [List.getElem?_eq_none (by omega), dif_neg h3]
    | number n => rfl
    | operator c => rfl
    | function nm => rfl
    | rightParen => rfl
  · rw [List.getElem?_eq_none (by omega), dif_neg h2]

theorem evaluate_powerV_ok (tokens : List Token) (pos : Nat) (l v : F64)
    (p q : Nat) (h1 : evaluate_factorV tokens pos = .ok (l, p))
    (h2 : power_loopV tokens l p = .ok (v, q)) :
    evaluate_powerV tokens pos = .ok (v, q) := by
  rw [evaluate_powerV_eq, h1]
  exact h2

theorem evaluate_termV_ok (tokens : List Token) (pos : Nat) (l v : F64)
    (p q : Nat) (h1 : evaluate_powerV tokens pos = .ok (l, p))
    (h2 : term_loopV tokens l p = .ok (v, q)) :
    evaluate_termV tokens pos = .ok (v, q) := by
  rw [evaluate_termV_eq, h1]
  exact h2

theorem evaluate_expressionV_ok (tokens : List Token) (pos : Nat) (l v : F64)
    (p q : Nat) (h1 : evaluate_termV tokens pos = .ok (l, p))
    (h2 : expression_loopV tokens l p = .ok (v, q)) :
    evaluate_expressionV tokens pos = .ok (v, q) := by
  rw [evaluate_expressionV_eq, h1]
  exact h2

theorem evaluate_termV_err (tokens : List Token) (pos : Nat) (l : F64)
    (p : Nat) (e : EvalError) (h1 : evaluate_powerV tokens pos = .ok (l, p))
    (h2 : term_loopV tokens l p = .error e) :
    evaluate_termV tokens pos = .error e := by
  rw [evaluate_termV_eq, h1]
  exact h2

theorem evaluate_expressionV_err (tokens : List Token) (pos : Nat)
    (e : EvalError) (h1 : evaluate_termV tokens pos = .error e) :
    evaluate_expressionV tokens pos = .error e := by
  rw [evaluate_expressionV_eq, h1]

theorem power_loopV_pow_ok (tokens : List Token) (left r v : F64)
    (pos p1 q : Nat) (h : tokens[pos]? = some (.operator '^'))
    (h2 : evaluate_factorV tokens (pos + 1) = .ok (r, p1))
    (h3 : (left.powf r).isFinite = true)
    (h4 : power_loopV tokens (left.powf r) p1 = .ok (v, q)) :
    power_loopV tokens left pos = .ok (v, q) := by
  rw [power_loopV_pow tokens left pos h, h2]
  show (if (left.powf r).isFinite then power_loopV tokens (left.powf r) p1
    else Except.error EvalError.invalidPowerResult) = _
  rw [if_pos h3]
  exact h4

theorem expression_loopV_add_ok (tokens : List Token) (left r v : F64)
    (pos p1 q : Nat) (h : tokens[pos]? = some (.operator '+'))
    (h2 : evaluate_termV tokens (pos + 1) = .ok (r, p1))
    (h3 : expression_loopV tokens (left.add r) p1 = .ok (v, q)) :
    expression_loopV tokens left pos = .ok (v, q) := by
  rw [expression_loopV_add tokens left pos h, h2]
  exact h3

theorem expression_loopV_sub_ok (tokens : List Token) (left r v : F64)
    (pos p1 q : Nat) (h : tokens[pos]? = some (.operator '-'))
    (h2 : evaluate_termV tokens (pos + 1) = .ok (r, p1))
    (h3 : expression_loopV tokens (left.sub r) p1 = .ok (v, q)) :
    expression_loopV tokens left pos = .ok (v, q) := by
  rw [expression_loopV_sub tokens left pos h, h2]
  exact h3

theorem term_loopV_mul_ok (tokens : List Token) (left r v : F64)
    (pos p1 q : Nat) (h : tokens[pos]? = some (.operator '*'))
    (h2 : evaluate_powerV tokens (pos + 1) = .ok (r, p1))
    (h3 : term_loopV tokens (left.mul r) p1 = .ok (v, q)) :
    term_loopV tokens left pos = .ok (v, q) := by
  rw [term_loopV_mul tokens left pos h, h2]
  exact h3

theorem term_loopV_div_ok (tokens : List Token) (left r v : F64)
    (pos p1 q : Nat) (h : tokens[pos]? = some (.operator '/'))
    (h2 : evaluate_powerV tokens (pos + 1) = .ok (r, p1))
    (h3 : r.eqZero = false)
    (h4 : term_loopV tokens (left.div r) p1 = .ok (v, q)) :
    term_loopV tokens left pos = .ok (v, q) := by
  rw [term_loopV_div tokens left pos h, h2]
  show (if r.eqZero then Except.error EvalError.divisionByZero
    else term_loopV tokens (left.div r) p1) = _
  rw [h3]
  exact h4

theorem term_loopV_div_zero (tokens : List Token) (left r : F64)
    (pos p1 : Nat) (h : tokens[pos]? = some (.operator '/'))
    (h2 : evaluate_powerV tokens (pos + 1) = .ok (r, p1))
    (h3 : r.eqZero = true) :
    term_loopV tokens left pos = .error .divisionByZero := by
  rw [term_loopV_div tokens left pos h, h2]
  show (if r.eqZero then Except.error EvalError.divisionByZero
    else term_loopV tokens (left.div r) p1) = _
  rw [h3]
  rfl

theorem evaluate_factorV_neg_ok (tokens : List Token) (pos : Nat) (v : F64)
    (q : Nat) (h : tokens[pos]? = some (.operator '-'))
    (h2 : evaluate_factorV tokens (pos + 1) = .ok (v, q)) :
    evaluate_factorV tokens pos = .ok (v.neg, q) := by
  rw [evaluate_factorV_neg tokens pos h, h2]
  rfl

theorem evaluate_factorV_paren_ok (tokens : List Token) (pos : Nat)
    (res : F64) (q : Nat) (h : tokens[pos]? = some .leftParen)
    (h2 : evaluate_expressionV tokens (pos + 1) = .ok (res, q))
    (h3 : tokens[q]? = some .rightParen) :
    evaluate_factorV tokens pos = .ok (res, q + 1) := by
  rw [evaluate_factorV_paren tokens pos h, h2]
  show (match tokens[q]? with
    | some Token.rightParen => Except.ok (res, q + 1)
    | _ => Except.error EvalError.unmatchedParenthesis) = _
  rw [h3]

theorem evaluate_factorV_fn_ok (tokens : List Token) (pos : Nat)
    (name : String) (f : F64 → F64) (arg : F64) (q : Nat)
    (h : tokens[pos]? = some (.function name))
    (h2 : tokens[pos + 1]? = some .leftParen)
    (h3 : evaluate_expressionV tokens (pos + 2) = .ok (arg, q))
    (h4 : tokens[q]? = some .rightParen)
    (h5 : lookupFunction name = some f)
    (h6 : (f arg).isFinite = true) :
    evaluate_factorV tokens pos = .ok (f arg, q + 1) := by
  rw [evaluate_factorV_fn tokens pos name h, h2]
  show (match evaluate_expressionV tokens (pos + 2) with
    | Except.error e => Except.error e
    | Except.ok (arg, q) =>
      match tokens[q]? with
      | some Token.rightParen =>
        (match lookupFunction name with
         | none => Except.error (EvalError.unknownFunctionEval name)
         | some f =>
           if (f arg).isFinite then Except.ok (f arg, q + 1)
           else Except.error EvalError.invalidFunctionResult)
      | _ => Except.error EvalError.missingFunctionClosingParenthesis) = _
  rw [h3]
  show (match tokens[q]? with
    | some Token.rightParen =>
      (match lookupFunction name with
       | none => Except.error (EvalError.unknownFunctionEval name)
       | some f =>
         if (f arg).isFinite then Except.ok (f arg, q + 1)
         else Except.error EvalError.invalidFunctionResult)
    | _ => Except.error EvalError.missingFunctionClosingParenthesis) = _
  rw [h4]
  show (match lookupFunction name with
    | none => Except.error (EvalError.unknownFunctionEval name)
    | some f =>
      if (f arg).isFinite then Except.ok (f arg, q + 1)
      else Except.error EvalError.invalidFunctionResult) = _
  rw [h5]
  show (if (f arg).isFinite then Except.ok (f arg, q + 1)
    else Except.error EvalError.invalidFunctionResult) = _
  rw [h6]
  rfl

theorem evaluate_tokens_ok (tokens : List Token) (v : F64) (p : Nat)
    (h : tokens ≠ [])
    (h2 : evaluate_expressionV tokens 0 = .ok (v, p)) :
    evaluate_tokens tokens = .ok v := by
  rw [evaluate_tokens_eq, if_neg (by simp [h]), h2]
  rfl

theorem evaluate_tokens_err (tokens : List Token) (e : EvalError)
    (h : tokens ≠ [])
    (h2 : evaluate_expressionV tokens 0 = .error e) :
    evaluate_tokens tokens = .error e := by
  rw [evaluate_tokens_eq, if_neg (by simp [h]), h2]
  rfl

theorem evaluate_checks_pass (s : String)
    (h1 : s.utf8ByteSize ≤ 1000)
    (h2 : (s.data.contains ';' || s.data.contains '|'
      || s.data.contains '&') = false)
    (tokens : List Token) (h3 : tokenize s = .ok tokens) :
    evaluate s = evaluate_tokens tokens := by
  unfold evaluate
  rw [if_neg (by omega), if_neg (by simp only [h2]; decide), h3]

theorem parse_number_err (cs : List Char) (e : EvalError)
    (h : parse_number cs = .error e) : ∃ s, e = .numberParseError s := by
  unfold parse_number at h
  split at h
  · cases h
  · cases h
    exact ⟨_, rfl⟩

theorem tokenize_go_ne_itl (cs : List Char) :
    tokenize_go cs ≠ .error .inputTooLong := by
  intro h
  match cs with
  | [] => rw [tokenize_go] at h; simp at h
  | c :: rest =>
    rw [tokenize_go] at h
    split at h
    · exact tokenize_go_ne_itl rest h
    · split at h
      · rename_i hn
        cases hp : parse_number (c :: rest) with
        | error e =>
          rw [hp] at h
          simp at h
          obtain ⟨s, hs⟩ := parse_number_err _ _ hp
          rw [h] at hs
          cases hs
        | ok r =>
          obtain ⟨v, rest'⟩ := r
          rw [hp] at h
          simp only [] at h
          cases ht : tokenize_go rest' with
          | error e => rw [ht] at h; simp at h; subst h; exact tokenize_go_ne_itl rest' ht
          | ok ts => rw [ht] at h; simp at h
      · split at h
        · simp only [Except.map] at h
          cases ht : tokenize_go rest with
          | error e => rw [ht] at h; simp at h; subst h; exact tokenize_go_ne_itl rest ht
          | ok ts => rw [ht] at h; simp at h
        · split at h
          · simp only [Except.map] at h
            cases ht : tokenize_go rest with
            | error e => rw [ht] at h; simp at h; subst h; exact tokenize_go_ne_itl rest ht
            | ok ts => rw [ht] at h; simp at h
          · split at h
            · simp only [Except.map] at h
              cases ht : tokenize_go rest with
              | error e => rw [ht] at h; simp at h; subst h; exact tokenize_go_ne_itl rest ht
              | ok ts => rw [ht] at h; simp at h
            · split at h
              · simp only [] at h
                split at h
                · simp only [Except.map] at h
                  cases ht : tokenize_go (parse_identifier (c :: rest)).2 with
                  | error e =>
                    rw [ht] at h; simp at h; subst h
                    exact tokenize_go_ne_itl (parse_identifier (c :: rest)).2 ht
                  | ok ts => rw [ht] at h; simp at h
                · simp at h
              · simp at h
termination_by cs.length
decreasing_by
  all_goals first
    | (simp only [List.length_cons]; omega)
    | (rw [parse_number_ok_rest _ _ _ hp]
       exact parse_number_rest_lt c rest (by tauto))
    | (exact parse_identifier_rest_lt c rest (by assumption))

mutual

theorem evaluate_expression_ne_itl (tokens : List Token) (pos : Nat) :
    evaluate_expression tokens pos ≠ .error .inputTooLong := by
  intro h
  rw [evaluate_expression] at h
  cases hterm : evaluate_term tokens pos with
  | error e =>
    rw [hterm] at h
    simp at h
    subst h
    exact evaluate_term_ne_itl tokens pos hterm
  | ok r =>
    obtain ⟨l, p1, hp1⟩ := r
    rw [hterm] at h
    simp only [] at h
    cases hloop : expression_loop tokens l p1 with
    | error e =>
      rw [hloop] at h
      simp at h
      subst h
      exact expression_loop_ne_itl tokens l p1 hloop
    | ok r2 =>
      obtain ⟨v, p2, hp2⟩ := r2
      rw [hloop] at h
      simp at h
termination_by (tokens.length - pos, 3)
decreasing_by
  all_goals first
    | exact Prod.Lex.right _ (by omega)
    | exact Prod.Lex.left _ _ (by omega)

theorem expression_loop_ne_itl (tokens : List Token) (left : F64) (pos : Nat) :
    expression_loop tokens left pos ≠ .error .inputTooLong := by
  intro h
  rw [expression_loop] at h
  split at h
  · split at h
    · cases hterm : evaluate_term tokens (pos + 1) with
      | error e =>
        rw [hterm] at h
        simp at h
        subst h
        exact evaluate_term_ne_itl tokens (pos + 1) hterm
      | ok r =>
        obtain ⟨rv, p1, hp1⟩ := r
        rw [hterm] at h
        simp only [] at h
        cases hloop : expression_loop tokens (left.add rv) p1 with
        | error e =>
          rw [hloop] at h
          simp at h
          subst h
          exact expression_loop_ne_itl tokens (left.add rv) p1 hloop
        | ok r2 =>
          obtain ⟨v, p2, hp2⟩ := r2
          rw [hloop] at h
          simp at h
    · cases hterm : evaluate_term tokens (pos + 1) with
      | error e =>
        rw [hterm] at h
        simp at h
        subst h
        exact evaluate_term_ne_itl tokens (pos + 1) hterm
      | ok r =>
        obtain ⟨rv, p1, hp1⟩ := r
        rw [hterm] at h
        simp only [] at h
        cases hloop : expression_loop tokens (left.sub rv) p1 with
        | error e =>
          rw [hloop] at h
          simp at h
          subst h
          exact expression_loop_ne_itl tokens (left.sub rv) p1 hloop
        | ok r2 =>
          obtain ⟨v, p2, hp2⟩ := r2
          rw [hloop] at h
          simp at h
    · simp at h
  · simp at h
termination_by (tokens.length - pos, 0)
decreasing_by
  all_goals first
    | exact Prod.Lex.right _ (by omega)
    | exact Prod.Lex.left _ _ (by omega)

theorem evaluate_term_ne_itl (tokens : List Token) (pos : Nat) :
    evaluate_term tokens pos ≠ .error .inputTooLong := by
  intro h
  rw [evaluate_term] at h
  cases hpow : evaluate_power tokens pos with
  | error e =>
    rw [hpow] at h
    simp at h
    subst h
    exact evaluate_power_ne_itl tokens pos hpow
  | ok r =>
    obtain ⟨l, p1, hp1⟩ := r
    rw [hpow] at h
    simp only [] at h
    cases hloop : term_loop tokens l p1 with
    | error e =>
      rw [hloop] at h
      simp at h
      subst h
      exact term_loop_ne_itl tokens l p1 hloop
    | ok r2 =>
      obtain ⟨v, p2, hp2⟩ := r2
      rw [hloop] at h
      simp at h
termination_by (tokens.length - pos, 2)
decreasing_by
  all_goals first
    | exact Prod.Lex.right _ (by omega)
    | exact Prod.Lex.left _ _ (by omega)

theorem term_loop_ne_itl (tokens : List Token) (left : F64) (pos : Nat) :
    term_loop tokens left pos ≠ .error .inputTooLong := by
  intro h
  rw [term_loop] at h
  split at h
  · split at h
    · cases hpow : evaluate_power tokens (pos + 1) with
      | error e =>
        rw [hpow] at h
        simp at h
        subst h
        exact evaluate_power_ne_itl tokens (pos + 1) hpow
      | ok r =>
        obtain ⟨rv, p1, hp1⟩ := r
        rw [hpow] at h
        simp only [] at h
        cases hloop : term_loop tokens (left.mul rv) p1 with
        | error e =>
          rw [hloop] at h
          simp at h
          subst h
          exact term_loop_ne_itl tokens (left.mul rv) p1 hloop
        | ok r2 =>
          obtain ⟨v, p2, hp2⟩ := r2
          rw [hloop] at h
          simp at h
    · cases hpow : evaluate_power tokens (pos + 1) with
      | error e =>
        rw [hpow] at h
        simp at h
        subst h
        exact evaluate_power_ne_itl tokens (pos + 1) hpow
      | ok r =>
        obtain ⟨rv, p1, hp1⟩ := r
        rw [hpow] at h
        simp only [] at h
        split at h
        · simp at h
        · cases hloop : term_loop tokens (left.div rv) p1 with
          | error e =>
            rw [hloop] at h
            simp at h
            subst h
            exact term_loop_ne_itl tokens (left.div rv) p1 hloop
          | ok r2 =>
            obtain ⟨v, p2, hp2⟩ := r2
            rw [hloop] at h
            simp at h
    · simp at h
  · simp at h
termination_by (tokens.length - pos, 0)
decreasing_by
  all_goals first
    | exact Prod.Lex.right _ (by omega)
    | exact Prod.Lex.left _ _ (by omega)

theorem evaluate_power_ne_itl (tokens : List Token) (pos : Nat) :
    evaluate_power tokens pos ≠ .error .inputTooLong := by
  intro h
  rw [evaluate_power] at h
  cases hfac : evaluate_factor tokens pos with
  | error e =>
    rw [hfac] at h
    simp at h
    subst h
    exact evaluate_factor_ne_itl tokens pos hfac
  | ok r =>
    obtain ⟨l, p1, hp1⟩ := r
    rw [hfac] at h
    simp only [] at h
    cases hloop : power_loop tokens l p1 with
    | error e =>
      rw [hloop] at h
      simp at h
      subst h
      exact power_loop_ne_itl tokens l p1 hloop
    | ok r2 =>
      obtain ⟨v, p2, hp2⟩ := r2
      rw [hloop] at h
      simp at h
termination_by (tokens.length - pos, 1)
decreasing_by
  all_goals first
    | exact Prod.Lex.right _ (by omega)
    | exact Prod.Lex.left _ _ (by omega)

theorem power_loop_ne_itl (tokens : List Token) (left : F64) (pos : Nat) :
    power_loop tokens left pos ≠ .error .inputTooLong := by
  intro h
  rw [power_loop] at h
  split at h
  · split at h
    · cases hfac : evaluate_factor tokens (pos + 1) with
      | error e =>
        rw [hfac] at h
        simp at h
        subst h
        exact evaluate_factor_ne_itl tokens (pos + 1) hfac
      | ok r =>
        obtain ⟨rv, p1, hp1⟩ := r
        rw [hfac] at h
        simp only [] at h
        split at h
        · cases hloop : power_loop tokens (left.powf rv) p1 with
          | error e =>
            rw [hloop] at h
            simp at h
            subst h
            exact power_loop_ne_itl tokens (left.powf rv) p1 hloop
          | ok r2 =>
            obtain ⟨v, p2, hp2⟩ := r2
            rw [hloop] at h
            simp at h
        · simp at h
    · simp at h
  · simp at h
termination_by (tokens.length - pos, 0)
decreasing_by
  all_goals first
    | exact Prod.Lex.right _ (by omega)
    | exact Prod.Lex.left _ _ (by omega)

theorem evaluate_factor_ne_itl (tokens : List Token) (pos : Nat) :
    evaluate_factor tokens pos ≠ .error .inputTooLong := by
  intro h
  rw [evaluate_factor] at h
  split at h
  · split at h
    · simp at h
    · cases hf : evaluate_factor tokens (pos + 1) with
      | error e =>
        rw [hf] at h
        simp at h
        subst h
        exact evaluate_factor_ne_itl tokens (pos + 1) hf
      | ok r =>
        obtain ⟨v, q, hq⟩ := r
        rw [hf] at h
        simp at h
    · cases hf : evaluate_factor tokens (pos + 1) with
      | error e =>
        rw [hf] at h
        simp at h
        subst h
        exact evaluate_factor_ne_itl tokens (pos + 1) hf
      | ok r =>
        obtain ⟨v, q, hq⟩ := r
        rw [hf] at h
        simp at h
    · cases hexp : evaluate_expression tokens (pos + 1) with
      | error e =>
        rw [hexp] at h
        simp at h
        subst h
        exact evaluate_expression_ne_itl tokens (pos + 1) hexp
      | ok r =>
        obtain ⟨res, q, hq⟩ := r
        rw [hexp] at h
        simp only [] at h
        split at h
        · split at h
          · simp at h
          · simp at h
        · simp at h
    · split at h
      · split at h
        · cases hexp : evaluate_expression tokens (pos + 2) with
          | error e =>
            rw [hexp] at h
            simp at h
            subst h
            exact evaluate_expression_ne_itl tokens (pos + 2) hexp
          | ok r =>
            obtain ⟨arg, q, hq⟩ := r
            rw [hexp] at h
            simp only [] at h
            split at h
            · split at h
              · split at h
                · simp at h
                · split at h
                  · simp at h
                  · simp at h
              · simp at h
            · simp at h
        · simp at h
      · simp at h
    · simp at h
  · simp at h
termination_by (tokens.length - pos, 0)
decreasing_by
  all_goals first
    | exact Prod.Lex.right _ (by omega)
    | exact Prod.Lex.left _ _ (by omega)

end

theorem evaluate_tokens_ne_itl (tokens : List Token) :
    evaluate_tokens tokens ≠ .error .inputTooLong := by
  intro h
  unfold evaluate_tokens at h
  split at h
  · simp at h
  · cases hexp : evaluate_expression tokens 0 with
    | error e =>
      rw [hexp] at h
      simp at h
      subst h
      exact evaluate_expression_ne_itl tokens 0 hexp
    | ok r =>
      obtain ⟨v, p, hp⟩ := r
      rw [hexp] at h
      simp at h

theorem power_loop_finite (tokens : List Token) (left : F64) (pos : Nat)
    (v : F64) (pp : {p : Nat // pos ≤ p ∧ p ≤ max tokens.length pos})
    (h : power_loop tokens left pos = .ok (v, pp)) :
    v = left ∨ v.isFinite = true := by
  rw [power_loop] at h
  split at h
  · split at h
    · cases hfac : evaluate_factor tokens (pos + 1) with
      | error e => rw [hfac] at h; simp at h
      | ok r =>
        obtain ⟨rv, p1, hp1⟩ := r
        rw [hfac] at h
        simp only [] at h
        split at h
        · rename_i hfin
          cases hloop : power_loop tokens (left.powf rv) p1 with
          | error e => rw [hloop] at h; simp at h
          | ok r2 =>
            obtain ⟨v2, p2, hp2⟩ := r2
            rw [hloop] at h
            simp at h
            obtain ⟨hv, _⟩ := h
            rcases power_loop_finite tokens (left.powf rv) p1 v2 ⟨p2, hp2⟩
              hloop with h2 | h2
            · right
              rw [← hv, h2]
              exact hfin
            · right
              rw [← hv]
              exact h2
        · simp at h
    · left
      simp at h
      exact h.1.symm
  · left
    simp at h
    exact h.1.symm
termination_by (tokens.length - pos)
decreasing_by
  omega

theorem power_loopV_finite (tokens : List Token) (left : F64) (pos : Nat)
    (v : F64) (p : Nat) (h : power_loopV tokens left pos = .ok (v, p)) :
    v = left ∨ v.isFinite = true := by
  unfold power_loopV at h
  cases hpl : power_loop tokens left pos with
  | error e => rw [hpl] at h; simp [Except.map] at h
  | ok r =>
    obtain ⟨v2, p2, hp2⟩ := r
    rw [hpl] at h
    simp [Except.map] at h
    obtain ⟨hv, _⟩ := h
    rw [← hv]
    exact power_loop_finite tokens left pos v2 ⟨p2, hp2⟩ hpl

theorem tokenize_go_number (c : Char) (rest : List Char) (v : F64)
    (rest' : List Char) (hc : ¬c = ' ') (hn : c.isDigit = true ∨ c = '.')
    (hp : parse_number (c :: rest) = .ok (v, rest')) :
    tokenize_go (c :: rest) =
      (tokenize_go rest').map (fun ts => .number v :: ts) := by
  rw [tokenize_go, if_neg hc, dif_pos hn, hp]
  simp only []
  cases tokenize_go rest' with
  | error e => rfl
  | ok ts => rfl

theorem parse_number_go_replicate (n : ℕ) (b : Bool) :
    parse_number_go (List.replicate n '0') b = (List.replicate n '0', []) := by
  induction n generalizing b with
  | zero => rfl
  | succ n ih =>
    rw [List.replicate_succ, parse_number_go]
    rw [if_pos (by decide)]
    rw [ih b]

theorem decValue_foldl_replicate (n : ℕ) (x : ℚ) :
    List.foldl (fun acc c => 10 * acc + (decDigit c : ℚ)) x
      (List.replicate n '0') = 10 ^ n * x := by
  induction n generalizing x with
  | zero => simp
  | succ n ih =>
    rw [List.replicate_succ, List.foldl_cons, ih]
    show (10:ℚ) ^ n * (10 * x + (decDigit '0' : ℚ)) = 10 ^ (n + 1) * x
    have : (decDigit '0' : ℚ) = 0 := by norm_num [decDigit]
    rw [this]
    ring

/-- A numeric literal of 310 digits whose exact value, `10^309`, exceeds the
largest finite IEEE double, so Rust's `f64` parser returns `inf` for it. -/
def overflowingLiteral : String := String.mk ('1' :: List.replicate 309 '0')

theorem parse_number_overflowing :
    parse_number ('1' :: List.replicate 309 '0') = .ok (.inf, []) := by
  have hgo : parse_number_go ('1' :: List.replicate 309 '0') false
      = ('1' :: List.replicate 309 '0', []) := by
    rw [parse_number_go, if_pos (by decide), parse_number_go_replicate]
  unfold parse_number
  rw [hgo]
  have hparse : rustParseF64 ('1' :: List.replicate 309 '0')
      = some F64.inf := by
    unfold rustParseF64
    rw [if_pos (by rw [List.any_cons]; rw [show '1'.isDigit = true from by decide]; rfl)]
    have htake : ('1' :: List.replicate 309 '0').takeWhile (fun c => c != '.')
        = '1' :: List.replicate 309 '0' := by
      rw [List.takeWhile_eq_self_iff]
      intro a ha
      rcases List.mem_cons.mp ha with h | h
      · subst h; decide
      · rw [List.eq_of_mem_replicate h]; decide
    have hdrop : ('1' :: List.replicate 309 '0').dropWhile (fun c => c != '.')
        = [] := by
      rw [List.dropWhile_eq_nil_iff]
      intro a ha
      rcases List.mem_cons.mp ha with h | h
      · subst h; decide
      · rw [List.eq_of_mem_replicate h]; decide
    rw [htake, hdrop]
    have hval : decValue ('1' :: List.replicate 309 '0') ([].drop 1)
        = 10 ^ 309 := by
      unfold decValue
      rw [List.foldl_cons, decValue_foldl_replicate]
      rw [show decDigit '1' = 1 from by decide]
      norm_num
    rw [hval]
    unfold F64.ovf
    rw [if_pos (by norm_num [overflowBound])]
  rw [hparse]

theorem tokenize_overflowing :
    tokenize overflowingLiteral = .ok [.number .inf] := by
  show tokenize_go ('1' :: List.replicate 309 '0') = _
  rw [tokenize_go_number '1' (List.replicate 309 '0') .inf []
    (by decide) (by left; decide) parse_number_overflowing]
  rw [show tokenize_go [] = .ok [] from by rw [tokenize_go]]
  rfl

theorem tokenize_232 : tokenize "2^3^2" = .ok [.number (.finite 2),
    .operator '^', .number (.finite 3), .operator '^', .number (.finite 2)] := by
  show tokenize_go ['2', '^', '3', '^', '2'] = _
  simp [tokenize_go, parse_number, parse_number_go, rustParseF64, decValue,
    decDigit, F64.ovf, overflowBound, Except.map]
  norm_num

theorem tokenize_neg22 : tokenize "-2^2" = .ok [.operator '-',
    .number (.finite 2), .operator '^', .number (.finite 2)] := by
  show tokenize_go ['-', '2', '^', '2'] = _
  simp [tokenize_go, parse_number, parse_number_go, rustParseF64, decValue,
    decDigit, F64.ovf, overflowBound, Except.map]
  norm_num

theorem tokenize_1div0 : tokenize "1 / 0" = .ok [.number (.finite 1),
    .operator '/', .number (.finite 0)] := by
  show tokenize_go ['1', ' ', '/', ' ', '0'] = _
  simp [tokenize_go, parse_number, parse_number_go, rustParseF64, decValue,
    decDigit, F64.ovf, overflowBound, Except.map]
  norm_num

theorem tokenize_123 : tokenize "1.2.3" = .ok [.number (.finite (6 / 5)),
    .number (.finite (3 / 10))] := by
  show tokenize_go ['1', '.', '2', '.', '3'] = _
  simp [tokenize_go, parse_number, parse_number_go, rustParseF64, decValue,
    decDigit, F64.ovf, overflowBound, Except.map]
  norm_num

theorem powf_2_3 : (F64.finite 2).powf (.finite 3) = .finite 8 := by
  simp [F64.powf, F64.ovf, overflowBound]
  norm_num

theorem powf_8_2 : (F64.finite 8).powf (.finite 2) = .finite 64 := by
  simp [F64.powf, F64.ovf, overflowBound]
  norm_num

theorem powf_neg2_2 : ((F64.finite 2).neg).powf (.finite 2) = .finite 4 := by
  simp [F64.neg, F64.powf, F64.ovf, overflowBound]
  norm_num

/-- C2: for every non-empty token sequence whose top-level expression parse
succeeds after consuming only a proper prefix of the sequence,
`evaluate_tokens` still returns `Ok` with the value of that prefix: the
final cursor position is discarded and trailing unconsumed tokens are not
rejected. -/
theorem trailing_tokens_ignored (tokens : List Token) (v : F64) (p : Nat)
    (h : tokens ≠ [])
    (h2 : evaluate_expressionV tokens 0 = .ok (v, p))
    (h3 : p < tokens.length) :
    evaluate_tokens tokens = .ok v :=
  evaluate_tokens_ok tokens v p h h2

/-- Witness for C2: the sequence `7 )` parses the expression `7` consuming
one of its two tokens, and evaluation returns `Ok 7`, ignoring the trailing
`)`. -/
theorem trailing_tokens_ignored_witness :
    evaluate_tokens [Token.number (.finite 7), Token.rightParen]
      = .ok (.finite 7) := by
  have h2 : evaluate_expressionV [Token.number (.finite 7), Token.rightParen] 0
      = .ok (.finite 7, 1) :=
    evaluate_expressionV_ok _ _ (.finite 7) (.finite 7) 1 1
      (evaluate_termV_ok _ _ (.finite 7) (.finite 7) 1 1
        (evaluate_powerV_ok _ _ (.finite 7) (.finite 7) 1 1
          (evaluate_factorV_number _ _ _ rfl)
          (power_loopV_stop _ _ _ (by decide)))
        (term_loopV_stop _ _ _ (by decide)))
      (expression_loopV_stop _ _ _ (by decide))
  exact trailing_tokens_ignored _ _ 1 (by simp) h2 (by simp)

/-- C3: the power operator is left-associative: a chain `a ^ b ^ c` of
number factors evaluates by folding `powf` left-to-right to
`(a ^ b) ^ c` (whenever the intermediate finiteness checks pass); in
particular `"2^3^2"` evaluates to `64`, not `512` (see the witness). -/
theorem power_left_assoc (a b c : F64)
    (h1 : (a.powf b).isFinite = true)
    (h2 : ((a.powf b).powf c).isFinite = true) :
    evaluate_tokens [.number a, .operator '^', .number b, .operator '^',
      .number c] = .ok ((a.powf b).powf c) := by
  refine evaluate_tokens_ok _ _ 5 (by simp) ?_
  refine evaluate_expressionV_ok _ _ ((a.powf b).powf c) _ 5 5 ?_
    (expression_loopV_stop _ _ _ rfl)
  refine evaluate_termV_ok _ _ ((a.powf b).powf c) _ 5 5 ?_
    (term_loopV_stop _ _ _ rfl)
  refine evaluate_powerV_ok _ _ a _ 1 5 (evaluate_factorV_number _ _ _ rfl) ?_
  refine power_loopV_pow_ok _ _ b _ 1 3 5 rfl
    (evaluate_factorV_number _ _ _ rfl) h1 ?_
  refine power_loopV_pow_ok _ _ c _ 3 5 5 rfl
    (evaluate_factorV_number _ _ _ rfl) h2 ?_
  exact power_loopV_stop _ _ _ rfl

/-- Witness for C3: `"2^3^2"` evaluates to `64` = `(2^3)^2`, not `512`. -/
theorem power_left_assoc_witness : evaluate "2^3^2" = .ok (.finite 64) := by
  rw [evaluate_checks_pass "2^3^2" (by decide) (by decide) _ tokenize_232]
  have e2 : ((F64.finite 2).powf (.finite 3)).powf (.finite 2)
      = .finite 64 := by rw [powf_2_3]; exact powf_8_2
  have h := power_left_assoc (.finite 2) (.finite 3) (.finite 2)
    (by rw [powf_2_3]; rfl) (by rw [e2]; rfl)
  rw [h, e2]

/-- C4: unary minus and unary plus bind tighter than every binary operator
and recurse into factor — a `-` in factor position negates the value of the
factor right after it, a `+` is a no-op — so `-a ^ b` evaluates as
`(-a) ^ b`; in particular `"-2^2"` evaluates to `4` (see the witness). -/
theorem unary_sign_binds_tighter :
    (∀ tokens pos v q, tokens[pos]? = some (Token.operator '-') →
      evaluate_factorV tokens (pos + 1) = .ok (v, q) →
      evaluate_factorV tokens pos = .ok (v.neg, q)) ∧
    (∀ tokens pos, tokens[pos]? = some (Token.operator '+') →
      evaluate_factorV tokens pos = evaluate_factorV tokens (pos + 1)) ∧
    (∀ a b : F64, ((a.neg).powf b).isFinite = true →
      evaluate_tokens [.operator '-', .number a, .operator '^', .number b]
        = .ok ((a.neg).powf b)) := by
  refine ⟨fun tokens pos v q h h2 =>
      evaluate_factorV_neg_ok tokens pos v q h h2,
    fun tokens pos h => evaluate_factorV_plus tokens pos h,
    fun a b hf => ?_⟩
  refine evaluate_tokens_ok _ _ 4 (by simp) ?_
  refine evaluate_expressionV_ok _ _ ((a.neg).powf b) _ 4 4 ?_
    (expression_loopV_stop _ _ _ rfl)
  refine evaluate_termV_ok _ _ ((a.neg).powf b) _ 4 4 ?_
    (term_loopV_stop _ _ _ rfl)
  refine evaluate_powerV_ok _ _ (a.neg) _ 2 4 ?_ ?_
  · exact evaluate_factorV_neg_ok _ 0 a 2 rfl (evaluate_factorV_number _ _ _ rfl)
  · refine power_loopV_pow_ok _ _ b _ 2 4 4 rfl
      (evaluate_factorV_number _ _ _ rfl) hf ?_
    exact power_loopV_stop _ _ _ rfl

/-- Witness for C4: `"-2^2"` evaluates to `4` = `(-2)^2`, not `-4`. -/
theorem unary_sign_binds_tighter_witness :
    evaluate "-2^2" = .ok (.finite 4) := by
  rw [evaluate_checks_pass "-2^2" (by decide) (by decide) _ tokenize_neg22]
  have h := unary_sign_binds_tighter.2.2 (.finite 2) (.finite 2)
    (by rw [powf_neg2_2]; rfl)
  rw [h, powf_neg2_2]

/-- C5: for a division in a term, if the right operand evaluates to `0.0`
then evaluation fails with `divisionByZero` before the division is
executed; in particular `"1 / 0"` fails with `divisionByZero` (see the
witness). -/
theorem division_by_zero_guard (tokens : List Token) (pos : Nat) (l : F64)
    (p : Nat) (r : F64) (q : Nat)
    (h1 : evaluate_powerV tokens pos = .ok (l, p))
    (h2 : tokens[p]? = some (Token.operator '/'))
    (h3 : evaluate_powerV tokens (p + 1) = .ok (r, q))
    (h4 : r.eqZero = true) :
    evaluate_termV tokens pos = .error .divisionByZero := by
  refine evaluate_termV_err tokens pos l p .divisionByZero h1 ?_
  exact term_loopV_div_zero tokens l r p q h2 h3 h4

/-- Witness for C5: `"1 / 0"` fails with `divisionByZero`. -/
theorem division_by_zero_guard_witness :
    evaluate "1 / 0" = .error .divisionByZero := by
  rw [evaluate_checks_pass "1 / 0" (by decide) (by decide) _ tokenize_1div0]
  refine evaluate_tokens_err _ _ (by simp) ?_
  refine evaluate_expressionV_err _ _ _ ?_
  refine division_by_zero_guard _ 0 (.finite 1) 1 (.finite 0) 3 ?_ rfl ?_ (by decide)
  · exact evaluate_powerV_ok _ _ (.finite 1) (.finite 1) 1 1
      (evaluate_factorV_number _ _ _ rfl) (power_loopV_stop _ _ _ (by decide))
  · exact evaluate_powerV_ok _ _ (.finite 0) (.finite 0) 3 3
      (evaluate_factorV_number _ _ _ rfl) (power_loopV_stop _ _ _ (by decide))

/-- C1 (amended): the finiteness checks cover exactly the power and
function-application results: a value returned by the factor parser for a
`Function` token passed the `is_finite` check, and the value returned by the
power parser after at least one `^` step passed it too.  (Literal parsing
and the `+`, `-`, `*`, `/` operators are not checked, and `evaluate` can
return `Ok` with a non-finite value; see the counterexample.) -/
theorem finiteness_checks :
    (∀ tokens pos name v p, tokens[pos]? = some (Token.function name) →
      evaluate_factorV tokens pos = .ok (v, p) → v.isFinite = true) ∧
    (∀ tokens pos l q v p, evaluate_factorV tokens pos = .ok (l, q) →
      tokens[q]? = some (Token.operator '^') →
      evaluate_powerV tokens pos = .ok (v, p) → v.isFinite = true) := by
  constructor
  · intro tokens pos name v p h h2
    rw [evaluate_factorV_fn tokens pos name h] at h2
    split at h2
    · split at h2
      · simp at h2
      · split at h2
        · split at h2
          · simp at h2
          · split at h2
            · rename_i hfin
              simp at h2
              obtain ⟨hv, _⟩ := h2
              rw [← hv]
              exact hfin
            · simp at h2
        · simp at h2
    · simp at h2
  · intro tokens pos l q v p hfac hq hpow
    rw [evaluate_powerV_eq, hfac] at hpow
    have hpow2 : power_loopV tokens l q = .ok (v, p) := hpow
    rw [power_loopV_pow tokens l q hq] at hpow2
    cases hfc : evaluate_factorV tokens (q + 1) with
    | error e => rw [hfc] at hpow2; simp at hpow2
    | ok r =>
      obtain ⟨rv, p1⟩ := r
      rw [hfc] at hpow2
      have hpow3 : (if (l.powf rv).isFinite then
          power_loopV tokens (l.powf rv) p1
          else Except.error EvalError.invalidPowerResult) = .ok (v, p) := hpow2
      by_cases hfin : (l.powf rv).isFinite
      · rw [if_pos hfin] at hpow3
        rcases power_loopV_finite tokens (l.powf rv) p1 v p hpow3 with h2 | h2
        · rw [h2]; exact hfin
        · exact h2
      · rw [if_neg hfin] at hpow3
        cases hpow3

theorem fabs_25 : fabs (.finite 25) = .finite 25 := by
  simp [fabs]

/-- Witness for C1 (amended): applying the whitelisted function `abs` to
`25` returns a value that the function-application finiteness check
accepted. -/
theorem finiteness_checks_witness :
    evaluate_factorV [Token.function "abs", Token.leftParen,
      Token.number (.finite 25), Token.rightParen] 0 = .ok (.finite 25, 4) ∧
    (F64.finite 25).isFinite = true := by
  have hexp : evaluate_expressionV [Token.function "abs", Token.leftParen,
      Token.number (.finite 25), Token.rightParen] 2 = .ok (.finite 25, 3) :=
    evaluate_expressionV_ok _ _ (.finite 25) (.finite 25) 3 3
      (evaluate_termV_ok _ _ (.finite 25) (.finite 25) 3 3
        (evaluate_powerV_ok _ _ (.finite 25) (.finite 25) 3 3
          (evaluate_factorV_number _ _ _ rfl)
          (power_loopV_stop _ _ _ (by decide)))
        (term_loopV_stop _ _ _ (by decide)))
      (expression_loopV_stop _ _ _ (by decide))
  have hfac : evaluate_factorV [Token.function "abs", Token.leftParen,
      Token.number (.finite 25), Token.rightParen] 0 = .ok (.finite 25, 4) := by
    have h := evaluate_factorV_fn_ok _ 0 "abs" fabs (.finite 25) 3
      rfl rfl hexp rfl rfl (by rw [fabs_25]; rfl)
    rw [fabs_25] at h
    exact h
  exact ⟨hfac, finiteness_checks.1 _ 0 "abs" (.finite 25) 4 rfl hfac⟩

set_option maxRecDepth 4000 in
/-- Counterexample for C1: the 310-digit literal `10^309` is beyond the
IEEE double range, Rust's `f64` parser turns it into `+inf` without an
error, no finiteness check runs on literals, and `evaluate` returns
`Ok(+inf)` — a non-finite value. -/
theorem nonfinite_ok_result :
    evaluate overflowingLiteral = .ok F64.inf ∧ F64.inf.isFinite = false := by
  constructor
  · rw [evaluate_checks_pass overflowingLiteral (by decide) (by decide) _
      tokenize_overflowing]
    exact evaluate_tokens_ok _ _ 1 (by simp)
      (evaluate_expressionV_ok _ _ .inf .inf 1 1
        (evaluate_termV_ok _ _ .inf .inf 1 1
          (evaluate_powerV_ok _ _ .inf .inf 1 1
            (evaluate_factorV_number _ _ _ rfl)
            (power_loopV_stop _ _ _ (by decide)))
          (term_loopV_stop _ _ _ (by decide)))
        (expression_loopV_stop _ _ _ (by decide)))
  · rfl

/-- C6 (amended): every input within the 1000-byte length cap that contains
any of the characters `;`, `|`, `&` fails with `unsafeCharacter`, and the
check runs before tokenization proper.  (An over-long input containing such
a character fails with `inputTooLong` instead, because the length check
runs first; see the counterexample.) -/
theorem unsafe_char_rejected (s : String)
    (h1 : s.utf8ByteSize ≤ 1000)
    (h2 : (s.data.contains ';' || s.data.contains '|'
      || s.data.contains '&') = true) :
    evaluate s = .error .unsafeCharacter := by
  unfold evaluate
  rw [if_neg (by omega), if_pos h2]

/-- Witness for C6 (amended): `"2 + 3; rm -rf /"` fails with
`unsafeCharacter` despite starting with valid arithmetic. -/
theorem unsafe_char_rejected_witness :
    evaluate "2 + 3; rm -rf /" = .error .unsafeCharacter :=
  unsafe_char_rejected _ (by decide) (by decide)

/-- An input of 1001 copies of `;`: it contains an unsafe character but is
also over the length cap. -/
def longUnsafeInput : String := String.mk (List.replicate 1001 ';')

set_option maxRecDepth 8000 in
/-- Counterexample for C6: an input of 1001 `;` characters contains `;` yet
fails with `inputTooLong`, not `unsafeCharacter`, because the length check
runs before the unsafe-character check. -/
theorem unsafe_char_not_always :
    longUnsafeInput.data.contains ';' = true ∧
    evaluate longUnsafeInput = .error .inputTooLong ∧
    EvalError.inputTooLong ≠ EvalError.unsafeCharacter := by
  refine ⟨by decide, ?_, by decide⟩
  unfold evaluate
  rw [if_pos (by decide)]

/-- C7 (amended): `evaluate` fails with `inputTooLong` exactly when the
input's UTF-8 byte length (Rust `String::len`) exceeds 1000 — for pure
ASCII input this coincides with the character count — and this check runs
before the unsafe-character check and before any tokenization, so the
content of an over-long input is irrelevant. -/
theorem input_too_long_iff (s : String) :
    evaluate s = .error .inputTooLong ↔ 1000 < s.utf8ByteSize := by
  constructor
  · intro h
    by_contra hn
    unfold evaluate at h
    rw [if_neg hn] at h
    split at h
    · simp at h
    · cases ht : tokenize s with
      | error e =>
        rw [ht] at h
        simp at h
        subst h
        exact tokenize_go_ne_itl s.data ht
      | ok tokens =>
        rw [ht] at h
        exact evaluate_tokens_ne_itl tokens h
  · intro h
    unfold evaluate
    rw [if_pos h]

set_option maxRecDepth 8000 in
/-- Witness for C7 (amended): a 1001-byte input fails with `inputTooLong`
regardless of its content. -/
theorem input_too_long_iff_witness :
    evaluate (String.mk (List.replicate 1001 'x')) = .error .inputTooLong :=
  (input_too_long_iff _).mpr (by decide)

/-- An input of 501 two-byte characters: 501 characters but 1002 bytes. -/
def multibyteInput : String := String.mk (List.replicate 501 'é')

set_option maxRecDepth 8000 in
/-- Counterexample for C7: an input of 501 characters `é` (1002 UTF-8
bytes) is not longer than 1000 characters, yet fails with `inputTooLong`:
the code compares the byte length, not the character count. -/
theorem input_too_long_multibyte :
    multibyteInput.length ≤ 1000 ∧
    evaluate multibyteInput = .error .inputTooLong := by
  refine ⟨by decide, ?_⟩
  unfold evaluate
  rw [if_pos (by decide)]

/-- C8 (amended): the tokenizer skips the space character `' '` without
producing a token or an error, but every other whitespace character (tab,
carriage return, line feed) is rejected with `invalidCharacter`: only the
literal space is matched by the skip branch. -/
theorem whitespace_handling :
    (∀ cs, tokenize_go (' ' :: cs) = tokenize_go cs) ∧
    (∀ c cs, c.isWhitespace = true → c = ' ' ∨
      tokenize_go (c :: cs) = .error (.invalidCharacter c)) := by
  constructor
  · intro cs
    rw [tokenize_go, if_pos rfl]
  · intro c cs hw
    by_cases hsp : c = ' '
    · exact Or.inl hsp
    · right
      simp only [Char.isWhitespace, Bool.or_eq_true, decide_eq_true_eq] at hw
      rcases hw with ((h | h) | h) | h
      · exact absurd h hsp
      · subst h
        rw [tokenize_go, if_neg (by decide), dif_neg (by decide),
          if_neg (by decide), if_neg (by decide), if_neg (by decide),
          if_neg (by decide)]
      · subst h
        rw [tokenize_go, if_neg (by decide), dif_neg (by decide),
          if_neg (by decide), if_neg (by decide), if_neg (by decide),
          if_neg (by decide)]
      · subst h
        rw [tokenize_go, if_neg (by decide), dif_neg (by decide),
          if_neg (by decide), if_neg (by decide), if_neg (by decide),
          if_neg (by decide)]

/-- Counterexample for C8: a tab is a whitespace character, yet the
tokenizer fails on it with `invalidCharacter` instead of skipping it — the
skip branch matches only `' '`. -/
theorem whitespace_tab_rejected :
    ('\t'.isWhitespace = true) ∧
    tokenize_go ['\t'] = .error (.invalidCharacter '\t') := by
  refine ⟨by decide, ?_⟩
  rw [tokenize_go, if_neg (by decide), dif_neg (by decide),
    if_neg (by decide), if_neg (by decide), if_neg (by decide),
    if_neg (by decide)]

theorem tokenize_go_number_err (c : Char) (rest : List Char) (e : EvalError)
    (hc : ¬c = ' ') (hn : c.isDigit = true ∨ c = '.')
    (hp : parse_number (c :: rest) = .error e) :
    tokenize_go (c :: rest) = .error e := by
  rw [tokenize_go, if_neg hc, dif_pos hn, hp]

theorem parse_number_go_dot (cs : List Char) :
    parse_number_go ('.' :: cs) false =
      ('.' :: (parse_number_go cs true).1, (parse_number_go cs true).2) := by
  rcases hgo : parse_number_go cs true with ⟨s, r⟩
  rw [parse_number_go, if_neg (by decide), if_pos (by decide), hgo]

theorem parse_number_ok_of_digit_consumed (cs : List Char)
    (h : (parse_number_go cs false).1.any Char.isDigit = true) :
    ∃ v rest, parse_number cs = .ok (v, rest) := by
  unfold parse_number
  split
  · exact ⟨_, _, rfl⟩
  · rename_i hnone
    exfalso
    unfold rustParseF64 at hnone
    rw [if_pos h] at hnone
    cases hnone

theorem parse_number_digit_ok (c : Char) (cs : List Char)
    (hd : c.isDigit = true) :
    ∃ v rest, parse_number (c :: cs) = .ok (v, rest) := by
  apply parse_number_ok_of_digit_consumed
  obtain ⟨s, hs⟩ := parse_number_go_consumed c cs (Or.inl hd)
  rw [hs, List.any_cons, hd]
  rfl

theorem parse_number_dot_digit_ok (d : Char) (ds : List Char)
    (hd : d.isDigit = true) :
    ∃ v rest, parse_number ('.' :: d :: ds) = .ok (v, rest) := by
  apply parse_number_ok_of_digit_consumed
  rw [parse_number_go_dot]
  obtain ⟨s, hs⟩ := parse_number_go_consumed d ds (Or.inl hd)
  show ('.' :: (parse_number_go (d :: ds) true).1).any Char.isDigit = true
  rw [hs]
  simp [List.any_cons, hd]

theorem parse_number_dot_nodigit_err (cs : List Char)
    (hh : ∀ c, cs.head? = some c → c.isDigit = false) :
    parse_number ('.' :: cs) = .error (.numberParseError ".") := by
  have hgo : parse_number_go ('.' :: cs) false = (['.'], cs) := by
    rw [parse_number_go, if_neg (by decide), if_pos (by decide)]
    have hstop : parse_number_go cs true = ([], cs) := by
      cases cs with
      | nil => rfl
      | cons d ds =>
        rw [parse_number_go]
        rw [if_neg (by simp [hh d rfl]), if_neg (by simp)]
    rw [hstop]
  unfold parse_number
  rw [hgo]
  rfl

/-- C9 (amended): the `numberParseError` branch is reachable, but exactly
when the digit/decimal-point branch is entered on a `'.'` whose following
character is not a digit: a run starting with a digit always parses (first
conjunct), a `'.'` followed by a digit always parses (second conjunct), a
`'.'` followed by no digit fails with `numberParseError "."` (third
conjunct), and conversely every failure of the branch is of that exact
shape: it came from a `'.'` entry, the message is `"."`, and the following
character was not a digit (fourth conjunct). -/
theorem number_parse_failure_characterization :
    (∀ c cs, c.isDigit = true →
      ∃ v rest, parse_number (c :: cs) = .ok (v, rest)) ∧
    (∀ d ds, d.isDigit = true →
      ∃ v rest, parse_number ('.' :: d :: ds) = .ok (v, rest)) ∧
    (∀ cs, (∀ c, cs.head? = some c → c.isDigit = false) →
      parse_number ('.' :: cs) = .error (.numberParseError ".")) ∧
    (∀ c cs e, c.isDigit = true ∨ c = '.' →
      parse_number (c :: cs) = .error e →
      c = '.' ∧ e = .numberParseError "." ∧
        ∀ d, cs.head? = some d → d.isDigit = false) := by
  refine ⟨parse_number_digit_ok, parse_number_dot_digit_ok,
    parse_number_dot_nodigit_err, ?_⟩
  intro c cs e hn hp
  rcases hn with hd | hdot
  · obtain ⟨v, rest, hok⟩ := parse_number_digit_ok c cs hd
    rw [hok] at hp
    cases hp
  · subst hdot
    cases cs with
    | nil =>
      have hh : ∀ c, ([] : List Char).head? = some c → c.isDigit = false := by
        intro c hc
        cases hc
      rw [parse_number_dot_nodigit_err [] hh] at hp
      injection hp with h1
      exact ⟨rfl, h1.symm, hh⟩
    | cons d ds =>
      by_cases hd : d.isDigit = true
      · obtain ⟨v, rest, hok⟩ := parse_number_dot_digit_ok d ds hd
        rw [hok] at hp
        cases hp
      · simp only [Bool.not_eq_true] at hd
        have hh : ∀ c, (d :: ds).head? = some c → c.isDigit = false := by
          intro c hc
          injection hc with h2
          rw [← h2]
          exact hd
        rw [parse_number_dot_nodigit_err (d :: ds) hh] at hp
        injection hp with h1
        exact ⟨rfl, h1.symm, hh⟩

/-- Counterexample for C9: the input `"."` reaches the `numberParseError`
branch: the digit/decimal-point branch consumes just `"."`, and parsing
`"."` as a 64-bit float fails. -/
theorem number_parse_error_reachable :
    tokenize_go ['.'] = .error (.numberParseError ".") :=
  tokenize_go_number_err '.' [] (.numberParseError ".")
    (by decide) (Or.inr rfl) rfl

/-- C10: a numeric literal containing a second decimal point is not
rejected: once a decimal point has been consumed, a further `'.'` ends the
current number (first conjunct), so `"1.2.3"` tokenizes as the number 1.2
followed by the number 0.3, and `evaluate` returns `Ok(1.2)` because the
second number is an unconsumed trailing token. -/
theorem second_decimal_point_starts_new_token :
    (∀ ds : List Char, parse_number_go ('.' :: ds) true = ([], '.' :: ds)) ∧
    tokenize "1.2.3" = .ok [.number (.finite (6 / 5)),
      .number (.finite (3 / 10))] ∧
    evaluate "1.2.3" = .ok (.finite (6 / 5)) := by
  refine ⟨fun ds => ?_, tokenize_123, ?_⟩
  · rw [parse_number_go, if_neg (by decide), if_neg (by decide)]
  · rw [evaluate_checks_pass "1.2.3" (by decide) (by decide) _ tokenize_123]
    refine evaluate_tokens_ok _ _ 1 (by simp) ?_
    refine evaluate_expressionV_ok _ _ (.finite (6 / 5)) _ 1 1 ?_
      (expression_loopV_stop _ _ _ (by decide))
    refine evaluate_termV_ok _ _ (.finite (6 / 5)) _ 1 1 ?_
      (term_loopV_stop _ _ _ (by decide))
    exact evaluate_powerV_ok _ _ (.finite (6 / 5)) (.finite (6 / 5)) 1 1
      (evaluate_factorV_number _ _ _ rfl)
      (power_loopV_stop _ _ _ (by decide))
